import Mathlib

/-!
# Table extraction demo: rectangle algebra and cell text aggregation

A shallow embedding of `src/Tesseract/tableExtractionDemo.cpp`.

Modelling conventions.

* C++ `int` values are integers reduced to 32 bits, two's complement
  (`wrap32`): `xr - xl`, `yt - yb`, `abs` and `width() * height()` wrap
  around, as the compiled program does.  Comparisons, `min` and `max` never
  leave the range of their operands and need no reduction.
  `Rectangle.NoOverflow` describes the rectangles on which none of these
  operations overflows; `Rectangle.area_eq_of_noOverflow` gives the exact
  area there, and every rectangle of pixel coordinates (`InPixelRange`) is
  one of them.
* `majorOverlap` compares in single precision: the literal `0.5f` makes
  `0.5f * std::min(area(), r.area())` a `float`, and the `int` on the left of
  `>` is converted to `float` as well.  The conversion `int -> float` is
  modelled exactly (IEEE-754 binary32, 24 bit significand, round to nearest,
  ties to even) by `intToFloat`, whose values are again integers.  Scaling by
  `0.5f` is exact, so `x > 0.5f * y` is `2 * x > y` on the converted values.
* The OCR result iterator is an external collaborator; it is modelled from the
  interface the specification gives for it (a finite stream of words, each
  with an optional text, a bounding box and a last-word-of-line flag).
-/

namespace TableExtraction

/-! ## Single precision conversion -/

/-- Number of low bits that do not fit into a 24 bit significand: the least
`s` with `n / 2 ^ s < 2 ^ 24` (the first argument bounds the search and is
always taken to be `n` itself). -/
def excessBits : Nat → Nat → Nat
  | 0, _ => 0
  | fuel + 1, n => if n < 2 ^ 24 then 0 else excessBits fuel (n / 2) + 1

/-- Round a natural number to 24 significant bits, to nearest, ties to even. -/
def roundNat (n : Nat) : Nat :=
  let s := excessBits n n
  let q := n / 2 ^ s
  let r := n % 2 ^ s
  if 2 ^ s < 2 * r ∨ (2 * r = 2 ^ s ∧ q % 2 = 1) then (q + 1) * 2 ^ s else q * 2 ^ s

/-- The value of the C++ conversion `(float)z` of an `int`, as an integer. -/
def intToFloat (z : Int) : Int :=
  if z < 0 then -((roundNat z.natAbs : Nat) : Int) else ((roundNat z.natAbs : Nat) : Int)

/-! ## 32 bit `int` arithmetic -/

/-- Two's complement reduction of an integer to the range of a 32 bit `int`. -/
def wrap32 (z : Int) : Int := (z + 2147483648) % 4294967296 - 2147483648

/-- The function `abs` on `int`; `abs(INT_MIN)` wraps around to `INT_MIN`. -/
def abs32 (z : Int) : Int := wrap32 |z|

/-! ## Rectangle (`class Rectangle`) -/

/-- The class `Rectangle`: left x, top y, right x, bottom y. -/
structure Rectangle where
  xl : Int
  yt : Int
  xr : Int
  yb : Int
  deriving DecidableEq, Repr

namespace Rectangle

/-- `int width() const {return abs(xr - xl);}` -/
def width (a : Rectangle) : Int := abs32 (wrap32 (a.xr - a.xl))

/-- `int height() const {return abs(yt - yb);}` -/
def height (a : Rectangle) : Int := abs32 (wrap32 (a.yt - a.yb))

/-- `int area() const {return width() * height();}` -/
def area (a : Rectangle) : Int := wrap32 (a.width * a.height)

/-- `Rectangle intersection(const Rectangle& r) const` -/
def intersection (a r : Rectangle) : Rectangle :=
  let overlap_xr := min a.xr r.xr
  let overlap_xl := max a.xl r.xl
  let overlap_yt := max a.yt r.yt
  let overlap_yb := min a.yb r.yb
  if overlap_xr > overlap_xl ∧ overlap_yt < overlap_yb then
    ⟨overlap_xl, overlap_yt, overlap_xr, overlap_yb⟩
  else
    ⟨0, 0, 0, 0⟩

/-- `bool majorOverlap(const Rectangle& r) const`: the comparison
`inter.area() > 0.5f * std::min(area(), r.area())` is carried out on `float`s. -/
def majorOverlap (a r : Rectangle) : Bool :=
  let inter := a.intersection r
  if 2 * intToFloat inter.area > intToFloat (min a.area r.area) then true else false

/-- `bool contains(int x, int y) const` -/
def contains (a : Rectangle) (x y : Int) : Bool :=
  decide (x > a.xl ∧ x < a.xr ∧ y > a.yt ∧ y < a.yb)

/-- The rectangles on which `width()`, `height()` and `area()` are computed
without `int` overflow: the two side lengths and their product are at most
`INT_MAX`. -/
def NoOverflow (a : Rectangle) : Prop :=
  |a.xr - a.xl| ≤ 2147483647 ∧ |a.yt - a.yb| ≤ 2147483647 ∧
  |a.xr - a.xl| * |a.yt - a.yb| ≤ 2147483647

instance (a : Rectangle) : Decidable a.NoOverflow := by
  unfold NoOverflow; infer_instance

/-- Coordinates of a pixel in an image of at most 46340 x 46340 pixels, the
largest square whose area fits a 32 bit `int`. -/
def InPixelRange (a : Rectangle) : Prop :=
  (0 ≤ a.xl ∧ a.xl ≤ 46340) ∧ (0 ≤ a.yt ∧ a.yt ≤ 46340) ∧
  (0 ≤ a.xr ∧ a.xr ≤ 46340) ∧ (0 ≤ a.yb ∧ a.yb ≤ 46340)

instance (a : Rectangle) : Decidable a.InPixelRange := by
  unfold InPixelRange; infer_instance

/-- Well-formed rectangles of the specification: left < right, top < bottom. -/
def WellFormed (a : Rectangle) : Prop := a.xl < a.xr ∧ a.yt < a.yb

instance (a : Rectangle) : Decidable a.WellFormed := by
  unfold WellFormed; infer_instance

end Rectangle

/-! ## The OCR engine (external collaborator) -/

/-- Modelled from the spec: one element of the engine's word stream,
`(text: Option<string>, box: Rect, isLastInLine: bool)`.  The text is `none`
when `GetUTF8Text(RIL_WORD)` returns a null pointer for the word. -/
structure Word where
  text : Option String
  box : Rectangle
  isLastOfLine : Bool
  deriving DecidableEq, Repr

/-- The two iterator levels `getTextInRegion` uses. -/
inductive PageIteratorLevel where
  | RIL_TEXTLINE
  | RIL_WORD
  deriving DecidableEq, Repr

/-- Modelled from the spec: `tesseract::ResultIterator`, whose implementation
belongs to the OCR library.  The state of an iterator over a finite word
stream is the part of the stream that starts at the current word; the empty
list is the iterator that has run off the end. -/
abbrev ResultIterator := List Word

namespace ResultIterator

/-- Modelled from the spec: `GetUTF8Text(RIL_WORD)`, null when the current
word has no text or there is no current word. -/
def GetUTF8Text (ri : ResultIterator) : Option String :=
  match ri with
  | [] => none
  | w :: _ => w.text

/-- Modelled from the spec: `BoundingBox(RIL_WORD, ...)` of the current word. -/
def BoundingBox (ri : ResultIterator) : Rectangle :=
  match ri with
  | [] => ⟨0, 0, 0, 0⟩
  | w :: _ => w.box

/-- Modelled from the spec: `IsAtFinalElement(RIL_TEXTLINE, RIL_WORD)`, the
last-word-of-line flag of the current word. -/
def IsAtFinalElement (ri : ResultIterator) : Bool :=
  match ri with
  | [] => true
  | w :: _ => w.isLastOfLine

/-- Modelled from the spec: `Next(level)`.  At word level the iterator moves to
the following word of the stream; at line level it moves to the first word
after the end of the current line.  The result is `false` when nothing is
left, and the iterator is then past the end. -/
def Next (ri : ResultIterator) (level : PageIteratorLevel) : Bool × ResultIterator :=
  match level with
  | .RIL_WORD =>
    match ri with
    | [] => (false, [])
    | _ :: rest => (!rest.isEmpty, rest)
  | .RIL_TEXTLINE =>
    let rest := (ri.dropWhile (fun w => !w.isLastOfLine)).drop 1
    (!rest.isEmpty, rest)

end ResultIterator

/-- A detected table as the engine reports it (`GetTableBoundingBox`,
`GetTableRows`, `GetTableCols`). -/
structure Table where
  boundingBox : Rectangle
  rows : List Rectangle
  cols : List Rectangle
  deriving DecidableEq, Repr

/-- Modelled from the spec: the part of `tesseract::TessBaseAPI` the program
reads after recognition: the word stream behind `GetIterator()` (`none` when
the engine returns a null iterator) and the detected tables. -/
structure TessBaseAPI where
  words : Option (List Word)
  tables : List Table
  deriving Repr

/-- Modelled from the spec: `GetIterator()` hands out a fresh iterator placed
on the first word. -/
def TessBaseAPI.GetIterator (api : TessBaseAPI) : Option ResultIterator := api.words

/-- The words of the engine's stream; none when the iterator is null. -/
def TessBaseAPI.wordList (api : TessBaseAPI) : List Word := api.words.getD []

/-! ## `getTextInRegion` -/

/-- The local state of `getTextInRegion`: the iterator `ri`, the accumulated
`text`, and a ghost list `seen` of the words on which `GetUTF8Text` was
called, in call order. -/
structure ScanState where
  ri : ResultIterator
  text : String
  seen : List Word
  deriving DecidableEq, Repr

/-- The inner `do { ... } while(ri->Next(tesseract::RIL_WORD));` loop.
`continue` jumps to the loop condition, `break` leaves the loop without
evaluating it.  The first argument bounds the number of iterations. -/
def wordLoop (region : Rectangle) : Nat → ScanState → ScanState
  | 0, st => st
  | fuel + 1, st =>
    let seen := st.seen ++ st.ri.head?.toList
    match st.ri.GetUTF8Text with
    | none =>
      -- if(!textp) continue;
      let nx := st.ri.Next .RIL_WORD
      if nx.1 then wordLoop region fuel ⟨nx.2, st.text, seen⟩ else ⟨nx.2, st.text, seen⟩
    | some textp =>
      let word_area := st.ri.BoundingBox
      let text := if region.majorOverlap word_area then st.text ++ textp else st.text
      if st.ri.IsAtFinalElement then
        -- break;
        ⟨st.ri, text, seen⟩
      else
        let nx := st.ri.Next .RIL_WORD
        if nx.1 then wordLoop region fuel ⟨nx.2, text, seen⟩ else ⟨nx.2, text, seen⟩

/-- The outer `do { ... } while(ri->Next(tesseract::RIL_TEXTLINE));` loop. -/
def lineLoop (region : Rectangle) : Nat → ScanState → ScanState
  | 0, st => st
  | fuel + 1, st =>
    let st1 := wordLoop region (st.ri.length + 1) st
    let nx := st1.ri.Next .RIL_TEXTLINE
    if nx.1 then lineLoop region fuel ⟨nx.2, st1.text, st1.seen⟩ else ⟨nx.2, st1.text, st1.seen⟩

/-- The body of `getTextInRegion` with its ghost state: the returned text and
the words examined. -/
def getTextInRegionTraced (region : Rectangle) (api : TessBaseAPI) : String × List Word :=
  match api.GetIterator with
  | none => ("", [])
  | some ri =>
    let st := lineLoop region (ri.length + 1) ⟨ri, "", []⟩
    (st.text, st.seen)

/-- `std::string getTextInRegion(const Rectangle& region, tesseract::TessBaseAPI *api)` -/
def getTextInRegion (region : Rectangle) (api : TessBaseAPI) : String :=
  (getTextInRegionTraced region api).1

/-! ## The table enumeration loop of `main` -/

/-- One line `Table %d, row %d, col %d, text "%s"` printed by `main`. -/
structure CellReport where
  table : Nat
  row : Nat
  col : Nat
  text : String
  deriving DecidableEq, Repr

/-- The loop `for(unsigned r = 0; r < rows.size(); ++r)` of `main`, for the
column `col` with index `c`; `out` collects the printed cell lines. -/
def rowLoop (api : TessBaseAPI) (i c : Nat) (col : Rectangle) (rows : List Rectangle) :
    Nat → Nat → List CellReport → List CellReport
  | 0, _, out => out
  | fuel + 1, r, out =>
    match rows[r]? with
    | none => out
    | some row =>
      rowLoop api i c col rows fuel (r + 1)
        (out ++ [⟨i, r, c, getTextInRegion (row.intersection col) api⟩])

/-- The loop `for(unsigned c = 0; c < cols.size(); ++c)` of `main`. -/
def colLoop (api : TessBaseAPI) (i : Nat) (rows cols : List Rectangle) :
    Nat → Nat → List CellReport → List CellReport
  | 0, _, out => out
  | fuel + 1, c, out =>
    match cols[c]? with
    | none => out
    | some col =>
      colLoop api i rows cols fuel (c + 1) (rowLoop api i c col rows rows.length 0 out)

/-- The cell lines `main` prints for table number `i` (the bounding box line
and the blank lines are not part of the model). -/
def reportTable (api : TessBaseAPI) (i : Nat) (t : Table) : List CellReport :=
  colLoop api i t.rows t.cols t.cols.length 0 []

/-- The loop `for(unsigned i = 0; i < api->GetNumberOfTables(); ++i)` of `main`. -/
def tableLoop (api : TessBaseAPI) : Nat → Nat → List CellReport → List CellReport
  | 0, _, out => out
  | fuel + 1, i, out =>
    match api.tables[i]? with
    | none => out
    | some t => tableLoop api fuel (i + 1) (out ++ reportTable api i t)

/-- All cell lines printed by the experimental-API part of `main`. -/
def mainCellReports (api : TessBaseAPI) : List CellReport :=
  tableLoop api api.tables.length 0 []

/-! ## Specification-side definitions and concrete inputs -/

/-- A region of 8192 x 4098 pixels. -/
def wideRegion : Rectangle := ⟨0, 0, 8192, 4098⟩

/-- A box of 9000 x 9000 pixels that meets `wideRegion` in a 4097 x 4097 square. -/
def largeBox : Rectangle := ⟨4095, 1, 13095, 9001⟩

/-- What one examined word does to the accumulated text: its text is
appended when it is available and the region majorly overlaps its box. -/
def appendWord (region : Rectangle) (acc : String) (w : Word) : String :=
  match w.text with
  | none => acc
  | some t => if region.majorOverlap w.box then acc ++ t else acc

/-- The text the specification asks for: the texts of the words whose text is
available and whose box the region majorly overlaps, in stream order, joined
without separator. -/
def overlappingText (region : Rectangle) (ws : List Word) : String :=
  String.join
    ((ws.filter (fun w => w.text.isSome && region.majorOverlap w.box)).map
      (fun w => w.text.getD ""))

/-- The cell line for row `rr` and column `cc`, each given with its index. -/
def cellLine (api : TessBaseAPI) (i : Nat) (cc rr : Nat × Rectangle) : CellReport :=
  ⟨i, rr.1, cc.1, getTextInRegion (rr.2.intersection cc.2) api⟩

/-- Row-major order of the index pairs `(row, column)` of an `R` x `C` table:
`(0,0), (0,1), ..., (0,C-1), (1,0), ..., (R-1,C-1)`. -/
def rowMajor (R C : Nat) : List (Nat × Nat) :=
  (List.range R).flatMap (fun r => (List.range C).map (fun c => (r, c)))

/-- Column-major order of the index pairs `(row, column)` of an `R` x `C`
table: `(0,0), (1,0), ..., (R-1,0), (0,1), ..., (R-1,C-1)`. -/
def columnMajor (R C : Nat) : List (Nat × Nat) :=
  (List.range C).flatMap (fun c => (List.range R).map (fun r => (r, c)))

/-- The `(rowIndex, columnIndex)` pair of a printed cell line. -/
def CellReport.indices (x : CellReport) : Nat × Nat := (x.row, x.col)

/-- An engine result with one table of two rows and two columns and no words. -/
def twoByTwo : TessBaseAPI :=
  ⟨some [], [⟨⟨0, 0, 20, 20⟩, [⟨0, 0, 20, 10⟩, ⟨0, 10, 20, 20⟩],
    [⟨0, 0, 10, 20⟩, ⟨10, 0, 20, 20⟩]⟩]⟩

/-! ## Facts about the single precision conversion -/

theorem roundNat_zero : roundNat 0 = 0 := by decide

theorem two_pow_excessBits_le (fuel : Nat) : ∀ n : Nat, 1 ≤ n → 2 ^ excessBits fuel n ≤ n := by
  induction fuel with
  | zero => intro n hn; simpa [excessBits] using hn
  | succ f ih =>
    intro n hn
    unfold excessBits
    split
    · simpa using hn
    · rename_i hlt
      have h2 : 1 ≤ n / 2 := by
        have : 2 ^ 24 ≤ n := Nat.le_of_not_lt hlt
        omega
      have := ih (n / 2) h2
      rw [pow_succ]
      omega

theorem roundNat_pos (n : Nat) (hn : 0 < n) : 0 < roundNat n := by
  have hle := two_pow_excessBits_le n n hn
  have hp : 0 < 2 ^ excessBits n n := Nat.pow_pos (by decide)
  have hq : 0 < n / 2 ^ excessBits n n := Nat.div_pos hle hp
  unfold roundNat
  simp only
  split
  · exact Nat.mul_pos (Nat.succ_pos _) hp
  · exact Nat.mul_pos hq hp

theorem excessBits_of_lt (fuel n : Nat) (h : n < 2 ^ 24) : excessBits fuel n = 0 := by
  cases fuel with
  | zero => rfl
  | succ f => simp only [excessBits, if_pos h]

/-- Integers below `2 ^ 24` are converted without rounding. -/
theorem roundNat_of_lt (n : Nat) (h : n < 2 ^ 24) : roundNat n = n := by
  unfold roundNat
  simp [excessBits_of_lt n n h, Nat.mod_one]

theorem intToFloat_zero : intToFloat 0 = 0 := by decide

theorem intToFloat_nonneg (z : Int) (hz : 0 ≤ z) : 0 ≤ intToFloat z := by
  unfold intToFloat
  rw [if_neg (not_lt.mpr hz)]
  exact Int.ofNat_nonneg _

theorem intToFloat_pos (z : Int) (hz : 0 < z) : 0 < intToFloat z := by
  unfold intToFloat
  rw [if_neg (not_lt.mpr hz.le)]
  have : 0 < z.natAbs := Int.natAbs_pos.mpr hz.ne'
  exact_mod_cast roundNat_pos _ this

/-- Non-negative integers below `2 ^ 24` are converted without rounding. -/
theorem intToFloat_of_small (z : Int) (h0 : 0 ≤ z) (h1 : z < 2 ^ 24) : intToFloat z = z := by
  unfold intToFloat
  rw [if_neg (not_lt.mpr h0)]
  have hn : z.natAbs < 2 ^ 24 := by omega
  rw [roundNat_of_lt _ hn]
  omega

theorem excessBits_cases (fuel : Nat) :
    ∀ n : Nat, excessBits fuel n = 0 ∨ 2 ^ excessBits fuel n * 2 ^ 23 ≤ n := by
  induction fuel with
  | zero => intro n; exact Or.inl rfl
  | succ f ih =>
    intro n
    unfold excessBits
    split
    · exact Or.inl rfl
    · rename_i hlt
      have hn : 2 ^ 24 ≤ n := Nat.le_of_not_lt hlt
      right
      rcases ih (n / 2) with h | h
      · rw [h]; omega
      · rw [pow_succ]; omega

/-- The conversion changes a number by less than one part in `2 ^ 23`. -/
theorem roundNat_bounds (n : Nat) :
    roundNat n * 8388608 ≤ n * 8388609 ∧ n * 8388607 ≤ roundNat n * 8388608 := by
  have hc := excessBits_cases n n
  have hdm := Nat.div_add_mod n (2 ^ excessBits n n)
  have hr : n % 2 ^ excessBits n n < 2 ^ excessBits n n :=
    Nat.mod_lt _ (Nat.pow_pos (by decide))
  have h1 : excessBits n n = 0 → 2 ^ excessBits n n = 1 := by
    intro h; rw [h]; rfl
  unfold roundNat
  simp only
  generalize 2 ^ excessBits n n = P at hc hdm hr h1 ⊢
  generalize hq : n / P = q at hdm ⊢
  generalize n % P = r at hdm hr ⊢
  generalize hm : P * q = m at hdm
  have e1 : (q + 1) * P = m + P := by rw [← hm]; ring
  have e2 : q * P = m := by rw [← hm]; ring
  rw [e1, e2]
  split
  · rename_i hup
    rcases hc with hc | hc
    · have := h1 hc; omega
    · omega
  · rcases hc with hc | hc
    · have := h1 hc; omega
    · omega

theorem roundNat_lt_two_mul (a b : Nat) (hb : 0 < b) (hab : a ≤ b) :
    roundNat a < 2 * roundNat b := by
  obtain ⟨ha1, _⟩ := roundNat_bounds a
  obtain ⟨_, hb2⟩ := roundNat_bounds b
  omega

theorem intToFloat_nonpos (z : Int) (hz : z ≤ 0) : intToFloat z ≤ 0 := by
  unfold intToFloat
  split
  · have : (0 : Int) ≤ ((roundNat z.natAbs : Nat) : Int) := Int.ofNat_nonneg _
    omega
  · have h0 : z = 0 := by omega
    subst h0
    decide

/-- A positive `int` exceeds, after conversion, half of every converted `int`
that is not larger. -/
theorem intToFloat_lt_two_mul (x y : Int) (hy : 0 < y) (hxy : x ≤ y) :
    intToFloat x < 2 * intToFloat y := by
  have hpos := intToFloat_pos y hy
  by_cases hx : x ≤ 0
  · have := intToFloat_nonpos x hx
    omega
  · have hx0 : 0 < x := by omega
    have hlt := roundNat_lt_two_mul x.natAbs y.natAbs (by omega) (by omega)
    unfold intToFloat
    rw [if_neg (by omega), if_neg (by omega)]
    exact_mod_cast hlt

/-! ## Facts about rectangles -/

theorem wrap32_of_range (z : Int) (h0 : -2147483648 ≤ z) (h1 : z ≤ 2147483647) :
    wrap32 z = z := by
  unfold wrap32; omega

namespace Rectangle

theorem width_eq (a : Rectangle) (h : |a.xr - a.xl| ≤ 2147483647) :
    a.width = |a.xr - a.xl| := by
  have h0 : 0 ≤ |a.xr - a.xl| := abs_nonneg _
  obtain ⟨h1, h2⟩ := abs_le.mp h
  rw [width, abs32, wrap32_of_range (a.xr - a.xl) (by omega) h2]
  exact wrap32_of_range _ (by omega) h

theorem height_eq (a : Rectangle) (h : |a.yt - a.yb| ≤ 2147483647) :
    a.height = |a.yt - a.yb| := by
  have h0 : 0 ≤ |a.yt - a.yb| := abs_nonneg _
  obtain ⟨h1, h2⟩ := abs_le.mp h
  rw [height, abs32, wrap32_of_range (a.yt - a.yb) (by omega) h2]
  exact wrap32_of_range _ (by omega) h

/-- Without overflow `area()` is the exact product of the side lengths. -/
theorem area_eq_of_noOverflow (a : Rectangle) (h : a.NoOverflow) :
    a.area = |a.xr - a.xl| * |a.yt - a.yb| := by
  obtain ⟨hw, hh, hp⟩ := h
  have h0 : 0 ≤ |a.xr - a.xl| * |a.yt - a.yb| := mul_nonneg (abs_nonneg _) (abs_nonneg _)
  rw [area, a.width_eq hw, a.height_eq hh]
  exact wrap32_of_range _ (by omega) hp

theorem area_nonneg_of_noOverflow (a : Rectangle) (h : a.NoOverflow) : 0 ≤ a.area := by
  rw [a.area_eq_of_noOverflow h]
  exact mul_nonneg (abs_nonneg _) (abs_nonneg _)

/-- On pixel coordinates no operation of `area()` overflows. -/
theorem noOverflow_of_inPixelRange (a : Rectangle) (h : a.InPixelRange) : a.NoOverflow := by
  obtain ⟨⟨h1, h2⟩, ⟨h3, h4⟩, ⟨h5, h6⟩, ⟨h7, h8⟩⟩ := h
  have hh0 : 0 ≤ |a.yt - a.yb| := abs_nonneg _
  have hw : |a.xr - a.xl| ≤ 46340 := abs_le.mpr ⟨by omega, by omega⟩
  have hh : |a.yt - a.yb| ≤ 46340 := abs_le.mpr ⟨by omega, by omega⟩
  have hp : |a.xr - a.xl| * |a.yt - a.yb| ≤ 46340 * 46340 :=
    mul_le_mul hw hh hh0 (by norm_num)
  have hc : (46340 : Int) * 46340 ≤ 2147483647 := by norm_num
  exact ⟨by omega, by omega, by omega⟩

theorem noOverflow_zero_rect : (⟨0, 0, 0, 0⟩ : Rectangle).NoOverflow := by decide

theorem area_zero_rect : (⟨0, 0, 0, 0⟩ : Rectangle).area = 0 := by decide

theorem intersection_swap (a b : Rectangle) : a.intersection b = b.intersection a := by
  simp only [intersection, min_comm a.xr b.xr, max_comm a.xl b.xl, max_comm a.yt b.yt,
    min_comm a.yb b.yb]

/-- When the overlap test of `intersection` fails the result is the sentinel. -/
theorem intersection_of_not_overlap (a b : Rectangle)
    (h : ¬ (min a.xr b.xr > max a.xl b.xl ∧ max a.yt b.yt < min a.yb b.yb)) :
    a.intersection b = ⟨0, 0, 0, 0⟩ := by
  simp only [intersection, if_neg h]

theorem intersection_of_overlap (a b : Rectangle)
    (h : min a.xr b.xr > max a.xl b.xl ∧ max a.yt b.yt < min a.yb b.yb) :
    a.intersection b = ⟨max a.xl b.xl, max a.yt b.yt, min a.xr b.xr, min a.yb b.yb⟩ := by
  simp only [intersection, if_pos h]

/-- The side lengths of an intersection are at most those of its first
argument. -/
theorem intersection_sides_le_left (a b : Rectangle) :
    |(a.intersection b).xr - (a.intersection b).xl| ≤ |a.xr - a.xl| ∧
    |(a.intersection b).yt - (a.intersection b).yb| ≤ |a.yt - a.yb| := by
  by_cases h : min a.xr b.xr > max a.xl b.xl ∧ max a.yt b.yt < min a.yb b.yb
  · rw [intersection_of_overlap a b h]
    obtain ⟨hx, hy⟩ := h
    have h1 : min a.xr b.xr ≤ a.xr := min_le_left _ _
    have h2 : a.xl ≤ max a.xl b.xl := le_max_left _ _
    have h3 : min a.yb b.yb ≤ a.yb := min_le_left _ _
    have h4 : a.yt ≤ max a.yt b.yt := le_max_left _ _
    constructor
    · show |min a.xr b.xr - max a.xl b.xl| ≤ |a.xr - a.xl|
      rw [abs_of_pos (by omega), abs_of_pos (by omega)]; omega
    · show |max a.yt b.yt - min a.yb b.yb| ≤ |a.yt - a.yb|
      rw [abs_of_neg (by omega), abs_of_neg (by omega)]; omega
  · rw [intersection_of_not_overlap a b h]
    exact ⟨by simp, by simp⟩

/-- The intersection with a rectangle free of overflow is free of overflow. -/
theorem intersection_noOverflow_left (a b : Rectangle) (ha : a.NoOverflow) :
    (a.intersection b).NoOverflow := by
  obtain ⟨hw, hh, hp⟩ := ha
  obtain ⟨h1, h2⟩ := a.intersection_sides_le_left b
  have hm := mul_le_mul h1 h2 (abs_nonneg _) (abs_nonneg (a.xr - a.xl))
  exact ⟨le_trans h1 hw, le_trans h2 hh, le_trans hm hp⟩

theorem intersection_area_le_left (a b : Rectangle) (ha : a.NoOverflow) :
    (a.intersection b).area ≤ a.area := by
  obtain ⟨h1, h2⟩ := a.intersection_sides_le_left b
  rw [area_eq_of_noOverflow _ (a.intersection_noOverflow_left b ha), a.area_eq_of_noOverflow ha]
  exact mul_le_mul h1 h2 (abs_nonneg _) (abs_nonneg _)

/-- A zero-area intersection never majorly overlaps when the smaller area is
not negative. -/
theorem majorOverlap_of_inter_area_zero (a b : Rectangle) (h : (a.intersection b).area = 0)
    (hm : 0 ≤ min a.area b.area) : a.majorOverlap b = false := by
  have := intToFloat_nonneg _ hm
  simp only [majorOverlap, h, intToFloat_zero]
  rw [if_neg (by omega)]

/-- A region of area zero, computed without overflow, majorly overlaps no box
whose area is computed without overflow. -/
theorem majorOverlap_of_area_zero (region box : Rectangle) (hr : region.NoOverflow)
    (hb : box.NoOverflow) (h : region.area = 0) : region.majorOverlap box = false := by
  apply majorOverlap_of_inter_area_zero
  · have h1 := region.intersection_area_le_left box hr
    have h2 := area_nonneg_of_noOverflow _ (region.intersection_noOverflow_left box hr)
    omega
  · exact le_min (region.area_nonneg_of_noOverflow hr) (box.area_nonneg_of_noOverflow hb)

end Rectangle

/-! ## The rectangle algebra: intersection and major overlap -/

/-- Below `2 ^ 24` the single precision comparison of `majorOverlap` is the
exact one: without overflow, if the smaller area is below `2 ^ 24`, the result
is `true` exactly when twice the intersection area exceeds the smaller area. -/
theorem Rectangle.majorOverlap_iff_of_small (a b : Rectangle)
    (ha : a.NoOverflow) (hb : b.NoOverflow) (h : min a.area b.area < 2 ^ 24) :
    a.majorOverlap b = true ↔ 2 * (a.intersection b).area > min a.area b.area := by
  have hm : 0 ≤ min a.area b.area :=
    le_min (a.area_nonneg_of_noOverflow ha) (b.area_nonneg_of_noOverflow hb)
  have hi : (a.intersection b).area ≤ min a.area b.area :=
    le_min (a.intersection_area_le_left b ha)
      (by rw [a.intersection_swap b]; exact b.intersection_area_le_left a hb)
  have hi0 : 0 ≤ (a.intersection b).area :=
    Rectangle.area_nonneg_of_noOverflow _ (a.intersection_noOverflow_left b ha)
  simp only [Rectangle.majorOverlap]
  rw [intToFloat_of_small _ hm h, intToFloat_of_small _ hi0 (lt_of_le_of_lt hi h)]
  by_cases hc : 2 * (a.intersection b).area > min a.area b.area
  · simp [hc]
  · simp [hc]

/-- C2: at the pixel rectangles `wideRegion` and `largeBox` the intersection
has area 16785409 and the smaller area is 33570816, so twice the intersection
area exceeds the smaller area; the single precision comparison of
`majorOverlap` rounds 16785409 to 16785408 and answers `false`. -/
theorem majorOverlap_single_precision_divergence :
    wideRegion.InPixelRange ∧ largeBox.InPixelRange ∧
    wideRegion.intersection largeBox = ⟨4095, 1, 8192, 4098⟩ ∧
    (wideRegion.intersection largeBox).area = 16785409 ∧
    min wideRegion.area largeBox.area = 33570816 ∧
    2 * (wideRegion.intersection largeBox).area > min wideRegion.area largeBox.area ∧
    intToFloat 16785409 = 16785408 ∧
    wideRegion.majorOverlap largeBox = false := by
  decide

/-- C5, as stated, fails: for `A = (0,0,65536,65536)` the product
`width() * height()` wraps around to 0, while the intersection with
`B = (0,0,10,10)` is `B`, of area 100. -/
theorem intersection_area_overflow :
    (⟨0, 0, 65536, 65536⟩ : Rectangle).area = 0 ∧
    ((⟨0, 0, 65536, 65536⟩ : Rectangle).intersection ⟨0, 0, 10, 10⟩).area = 100 ∧
    ¬ (((⟨0, 0, 65536, 65536⟩ : Rectangle).intersection ⟨0, 0, 10, 10⟩).area
        ≤ min (⟨0, 0, 65536, 65536⟩ : Rectangle).area (⟨0, 0, 10, 10⟩ : Rectangle).area) := by
  decide

/-- C5, amended: for all rectangles whose side lengths and area are computed
without `int` overflow, inverted and degenerate ones included, the area of
the intersection is at most the smaller of the two areas. -/
theorem intersection_area_le_min (A B : Rectangle) (hA : A.NoOverflow) (hB : B.NoOverflow) :
    (A.intersection B).area ≤ min A.area B.area :=
  le_min (A.intersection_area_le_left B hA)
    (by rw [A.intersection_swap B]; exact B.intersection_area_le_left A hB)

/-- Witness for C5: an inverted rectangle and a well-formed one. -/
theorem intersection_area_le_min_witness :
    (⟨10, 0, 0, 10⟩ : Rectangle).NoOverflow ∧ (⟨5, 5, 15, 15⟩ : Rectangle).NoOverflow ∧
    ((⟨10, 0, 0, 10⟩ : Rectangle).intersection ⟨5, 5, 15, 15⟩).area
      ≤ min (⟨10, 0, 0, 10⟩ : Rectangle).area (⟨5, 5, 15, 15⟩ : Rectangle).area :=
  ⟨by decide, by decide, intersection_area_le_min ⟨10, 0, 0, 10⟩ ⟨5, 5, 15, 15⟩ (by decide)
    (by decide)⟩

/-- C6: `majorOverlap` is symmetric in its two rectangles. -/
theorem majorOverlap_symmetric (A B : Rectangle) :
    A.majorOverlap B = B.majorOverlap A := by
  simp only [Rectangle.majorOverlap, A.intersection_swap B, min_comm A.area B.area]

/-- C7, as stated, fails: the well-formed rectangles `(0,0,46341,46341)` and
`(46341,0,92682,46341)` share only the edge `x = 46341`, but both areas wrap
around to -2147479015, and zero exceeds half of a negative area. -/
theorem touching_majorOverlap_overflow :
    (⟨0, 0, 46341, 46341⟩ : Rectangle).WellFormed ∧
    (⟨46341, 0, 92682, 46341⟩ : Rectangle).WellFormed ∧
    min (46341 : Int) 92682 ≤ max 0 46341 ∧
    (⟨0, 0, 46341, 46341⟩ : Rectangle).area = -2147479015 ∧
    (⟨46341, 0, 92682, 46341⟩ : Rectangle).area = -2147479015 ∧
    (⟨0, 0, 46341, 46341⟩ : Rectangle).majorOverlap ⟨46341, 0, 92682, 46341⟩ = true := by
  decide

/-- C7, amended: two well-formed rectangles, with side lengths and area
computed without `int` overflow, that only touch (share an edge or a corner)
or do not meet at all never satisfy `majorOverlap`: their intersection is the
sentinel, of area zero. -/
theorem touching_not_majorOverlap (A B : Rectangle)
    (hA : A.WellFormed) (hB : B.WellFormed) (hAo : A.NoOverflow) (hBo : B.NoOverflow)
    (h : min A.xr B.xr ≤ max A.xl B.xl ∨ min A.yb B.yb ≤ max A.yt B.yt) :
    A.majorOverlap B = false := by
  have hn : ¬ (min A.xr B.xr > max A.xl B.xl ∧ max A.yt B.yt < min A.yb B.yb) := by
    rintro ⟨h1, h2⟩
    rcases h with h | h
    · exact absurd h1 (not_lt.mpr h)
    · exact absurd h2 (not_lt.mpr h)
  apply Rectangle.majorOverlap_of_inter_area_zero
  · rw [Rectangle.intersection_of_not_overlap A B hn, Rectangle.area_zero_rect]
  · exact le_min (A.area_nonneg_of_noOverflow hAo) (B.area_nonneg_of_noOverflow hBo)

/-- Witness for C7: two boxes sharing the edge `x = 10`. -/
theorem touching_not_majorOverlap_witness :
    (⟨0, 0, 10, 10⟩ : Rectangle).WellFormed ∧ (⟨10, 0, 20, 10⟩ : Rectangle).WellFormed ∧
    (⟨0, 0, 10, 10⟩ : Rectangle).NoOverflow ∧ (⟨10, 0, 20, 10⟩ : Rectangle).NoOverflow ∧
    (⟨0, 0, 10, 10⟩ : Rectangle).majorOverlap ⟨10, 0, 20, 10⟩ = false :=
  ⟨by decide, by decide, by decide, by decide,
    touching_not_majorOverlap ⟨0, 0, 10, 10⟩ ⟨10, 0, 20, 10⟩ (by decide) (by decide)
      (by decide) (by decide) (by decide)⟩

/-- C8: on well-formed rectangles `intersection` is commutative: both orders
give the same four coordinates. -/
theorem intersection_commutative (A B : Rectangle)
    (hA : A.WellFormed) (hB : B.WellFormed) :
    A.intersection B = B.intersection A ∧
    (A.intersection B).xl = (B.intersection A).xl ∧
    (A.intersection B).yt = (B.intersection A).yt ∧
    (A.intersection B).xr = (B.intersection A).xr ∧
    (A.intersection B).yb = (B.intersection A).yb := by
  have h := A.intersection_swap B
  exact ⟨h, by rw [h], by rw [h], by rw [h], by rw [h]⟩

/-- Witness for C8: two overlapping well-formed rectangles. -/
theorem intersection_commutative_witness :
    (⟨0, 0, 10, 10⟩ : Rectangle).WellFormed ∧ (⟨5, 5, 15, 15⟩ : Rectangle).WellFormed ∧
    (⟨0, 0, 10, 10⟩ : Rectangle).intersection ⟨5, 5, 15, 15⟩
      = (⟨5, 5, 15, 15⟩ : Rectangle).intersection ⟨0, 0, 10, 10⟩ :=
  ⟨by decide, by decide,
    (intersection_commutative ⟨0, 0, 10, 10⟩ ⟨5, 5, 15, 15⟩ (by decide) (by decide)).1⟩

/-- C9: a well-formed rectangle intersected with itself is itself, never the
`(0,0,0,0)` sentinel. -/
theorem intersection_idempotent (A : Rectangle) (hA : A.WellFormed) :
    A.intersection A = A := by
  obtain ⟨hx, hy⟩ := hA
  have h : min A.xr A.xr > max A.xl A.xl ∧ max A.yt A.yt < min A.yb A.yb := by
    simp only [min_self, max_self]; exact ⟨hx, hy⟩
  rw [Rectangle.intersection_of_overlap A A h]
  simp only [min_self, max_self]

/-- Witness for C9: the rectangle `(3,4,10,20)`. -/
theorem intersection_idempotent_witness :
    (⟨3, 4, 10, 20⟩ : Rectangle).WellFormed ∧
    (⟨3, 4, 10, 20⟩ : Rectangle).intersection ⟨3, 4, 10, 20⟩ = ⟨3, 4, 10, 20⟩ :=
  ⟨by decide, intersection_idempotent ⟨3, 4, 10, 20⟩ (by decide)⟩

/-- C10, as stated, fails: `B = (0,0,46341,46341)` is well-formed and lies
within `A = B`, the intersection is `B`, but the area wraps around to
-2147479015, which does not exceed its own half. -/
theorem contained_majorOverlap_overflow :
    (⟨0, 0, 46341, 46341⟩ : Rectangle).WellFormed ∧
    (⟨0, 0, 46341, 46341⟩ : Rectangle).intersection ⟨0, 0, 46341, 46341⟩
      = ⟨0, 0, 46341, 46341⟩ ∧
    (⟨0, 0, 46341, 46341⟩ : Rectangle).area = -2147479015 ∧
    (⟨0, 0, 46341, 46341⟩ : Rectangle).majorOverlap ⟨0, 0, 46341, 46341⟩ = false := by
  decide

/-- C10, amended: a well-formed rectangle `B`, with side lengths and area
computed without `int` overflow, lying within `A` is its own intersection
with `A`, and `A.majorOverlap(B)` is true whatever the size of `B`. -/
theorem contained_majorOverlap (A B : Rectangle) (hB : B.WellFormed) (hBo : B.NoOverflow)
    (hl : A.xl ≤ B.xl) (ht : A.yt ≤ B.yt) (hr : B.xr ≤ A.xr) (hb : B.yb ≤ A.yb) :
    A.intersection B = B ∧ A.majorOverlap B = true := by
  obtain ⟨hx, hy⟩ := hB
  have hov : min A.xr B.xr > max A.xl B.xl ∧ max A.yt B.yt < min A.yb B.yb := by
    rw [min_eq_right hr, max_eq_right hl, max_eq_right ht, min_eq_right hb]
    exact ⟨hx, hy⟩
  have hI : A.intersection B = B := by
    rw [Rectangle.intersection_of_overlap A B hov, min_eq_right hr, max_eq_right hl,
      max_eq_right ht, min_eq_right hb]
  refine ⟨hI, ?_⟩
  have hpos : 0 < B.area := by
    rw [B.area_eq_of_noOverflow hBo]
    have hw : 0 < |B.xr - B.xl| := abs_pos.mpr (by omega)
    have hh : 0 < |B.yt - B.yb| := abs_pos.mpr (by omega)
    exact mul_pos hw hh
  have hf := intToFloat_lt_two_mul (min A.area B.area) B.area hpos (min_le_right _ _)
  simp only [Rectangle.majorOverlap, hI]
  rw [if_pos hf]

/-- Witness for C10: `B = (1,1,9,9)` within `A = (0,0,10,10)`. -/
theorem contained_majorOverlap_witness :
    (⟨1, 1, 9, 9⟩ : Rectangle).WellFormed ∧ (⟨1, 1, 9, 9⟩ : Rectangle).NoOverflow ∧
    (⟨0, 0, 10, 10⟩ : Rectangle).intersection ⟨1, 1, 9, 9⟩ = ⟨1, 1, 9, 9⟩ ∧
    (⟨0, 0, 10, 10⟩ : Rectangle).majorOverlap ⟨1, 1, 9, 9⟩ = true :=
  ⟨by decide, by decide,
    contained_majorOverlap ⟨0, 0, 10, 10⟩ ⟨1, 1, 9, 9⟩ (by decide) (by decide) (by decide)
      (by decide) (by decide) (by decide)⟩

/-! ## The cell text aggregator -/

theorem foldl_appendWord_eq (region : Rectangle) (ws : List Word) : ∀ acc : String,
    ws.foldl (appendWord region) acc
      = ((ws.filter (fun w => w.text.isSome && region.majorOverlap w.box)).map
          (fun w => w.text.getD "")).foldl (fun r s => r ++ s) acc := by
  induction ws with
  | nil => intro acc; rfl
  | cons w rest ih =>
    intro acc
    rw [List.foldl_cons, ih]
    cases hw : w.text with
    | none => simp [appendWord, hw, List.filter_cons]
    | some t =>
      by_cases hm : region.majorOverlap w.box = true
      · simp [appendWord, hw, hm, List.filter_cons]
      · simp [appendWord, hw, hm, List.filter_cons]

theorem foldl_appendWord_overlappingText (region : Rectangle) (ws : List Word) :
    ws.foldl (appendWord region) "" = overlappingText region ws := by
  rw [foldl_appendWord_eq]; rfl

/-- One run of the inner loop from the word stream `ws`: it consumes a
prefix `pre` of the stream, and the line-level `Next` that follows it lands
exactly on the rest `post`, which is shorter than `ws` unless `ws` is empty. -/
theorem wordLoop_spec (region : Rectangle) (ws : List Word) :
    ∀ (fuel : Nat) (text : String) (seen : List Word), ws.length < fuel →
      ∃ pre post : List Word, ws = pre ++ post ∧
        ((wordLoop region fuel ⟨ws, text, seen⟩).ri.Next .RIL_TEXTLINE).2 = post ∧
        (post.length < ws.length ∨ ws = []) ∧
        (wordLoop region fuel ⟨ws, text, seen⟩).text = pre.foldl (appendWord region) text ∧
        (wordLoop region fuel ⟨ws, text, seen⟩).seen = seen ++ pre := by
  induction ws with
  | nil =>
    intro fuel text seen hf
    obtain ⟨f, rfl⟩ : ∃ f, fuel = f + 1 := ⟨fuel - 1, by omega⟩
    exact ⟨[], [], rfl, by simp [wordLoop, ResultIterator.GetUTF8Text, ResultIterator.Next],
      Or.inr rfl, by simp [wordLoop, ResultIterator.GetUTF8Text, ResultIterator.Next],
      by simp [wordLoop, ResultIterator.GetUTF8Text, ResultIterator.Next]⟩
  | cons w rest ih =>
    intro fuel text seen hf
    obtain ⟨f, rfl⟩ : ∃ f, fuel = f + 1 := ⟨fuel - 1, by omega⟩
    have hf2 : rest.length < f := by simpa using hf
    -- the common continuation: `Next(RIL_WORD)` and the loop condition
    have step : ∀ text2 : String,
        ∃ pre post : List Word, rest = pre ++ post ∧
          ((if (!rest.isEmpty) = true then wordLoop region f ⟨rest, text2, seen ++ [w]⟩
            else (⟨rest, text2, seen ++ [w]⟩ : ScanState)).ri.Next .RIL_TEXTLINE).2 = post ∧
          post.length ≤ rest.length ∧
          (if (!rest.isEmpty) = true then wordLoop region f ⟨rest, text2, seen ++ [w]⟩
            else (⟨rest, text2, seen ++ [w]⟩ : ScanState)).text
              = pre.foldl (appendWord region) text2 ∧
          (if (!rest.isEmpty) = true then wordLoop region f ⟨rest, text2, seen ++ [w]⟩
            else (⟨rest, text2, seen ++ [w]⟩ : ScanState)).seen = seen ++ [w] ++ pre := by
      intro text2
      cases rest with
      | nil =>
        exact ⟨[], [], rfl, by simp [ResultIterator.Next], le_refl _, by simp, by simp⟩
      | cons v rest2 =>
        obtain ⟨pre, post, h1, h2, h3, h4, h5⟩ := ih f text2 (seen ++ [w]) hf2
        refine ⟨pre, post, h1, by simpa using h2, ?_, by simpa using h4, by simpa using h5⟩
        rcases h3 with h3 | h3
        · exact h3.le
        · exact absurd h3 (by simp)
    cases hw : w.text with
    | none =>
      obtain ⟨pre, post, h1, h2, h3, h4, h5⟩ := step text
      refine ⟨w :: pre, post, by rw [h1]; rfl, ?_, Or.inl ?_, ?_, ?_⟩
      · simpa [wordLoop, ResultIterator.GetUTF8Text, ResultIterator.Next, hw] using h2
      · simp only [List.length_cons]; omega
      · simpa [wordLoop, ResultIterator.GetUTF8Text, ResultIterator.Next, hw, appendWord]
          using h4
      · simpa [wordLoop, ResultIterator.GetUTF8Text, ResultIterator.Next, hw] using h5
    | some t =>
      cases hl : w.isLastOfLine with
      | true =>
        refine ⟨[w], rest, rfl, ?_, Or.inl (by simp), ?_, ?_⟩
        · simp [wordLoop, ResultIterator.GetUTF8Text, ResultIterator.Next,
            ResultIterator.IsAtFinalElement, hw, hl, List.dropWhile_cons]
        · simp [wordLoop, ResultIterator.GetUTF8Text, ResultIterator.BoundingBox,
            ResultIterator.IsAtFinalElement, hw, hl, appendWord]
        · simp [wordLoop, ResultIterator.GetUTF8Text, ResultIterator.IsAtFinalElement, hw, hl]
      | false =>
        obtain ⟨pre, post, h1, h2, h3, h4, h5⟩ := step (appendWord region text w)
        refine ⟨w :: pre, post, by rw [h1]; rfl, ?_, Or.inl ?_, ?_, ?_⟩
        · simpa [wordLoop, ResultIterator.GetUTF8Text, ResultIterator.Next,
            ResultIterator.BoundingBox, ResultIterator.IsAtFinalElement, hw, hl, appendWord]
            using h2
        · simp only [List.length_cons]; omega
        · simpa [wordLoop, ResultIterator.GetUTF8Text, ResultIterator.Next,
            ResultIterator.BoundingBox, ResultIterator.IsAtFinalElement, hw, hl, appendWord]
            using h4
        · simpa [wordLoop, ResultIterator.GetUTF8Text, ResultIterator.Next,
            ResultIterator.BoundingBox, ResultIterator.IsAtFinalElement, hw, hl, appendWord]
            using h5

/-- The outer loop, given enough iterations, runs the iterator off the end,
folds `appendWord` over the whole stream and examines every word in turn. -/
theorem lineLoop_spec (region : Rectangle) :
    ∀ (n : Nat) (ws : List Word) (fuel : Nat) (text : String) (seen : List Word),
      ws.length ≤ n → ws.length < fuel →
      lineLoop region fuel ⟨ws, text, seen⟩
        = ⟨[], ws.foldl (appendWord region) text, seen ++ ws⟩ := by
  intro n
  induction n with
  | zero =>
    intro ws fuel text seen hn hf
    obtain ⟨f, rfl⟩ : ∃ f, fuel = f + 1 := ⟨fuel - 1, by omega⟩
    have hws : ws = [] := List.length_eq_zero.mp (Nat.le_zero.mp hn)
    subst hws
    simp [lineLoop, wordLoop, ResultIterator.GetUTF8Text, ResultIterator.Next]
  | succ n ih =>
    intro ws fuel text seen hn hf
    obtain ⟨f, rfl⟩ : ∃ f, fuel = f + 1 := ⟨fuel - 1, by omega⟩
    obtain ⟨pre, post, h1, h2, h3, h4, h5⟩ :=
      wordLoop_spec region ws (ws.length + 1) text seen (Nat.lt_succ_self _)
    have hb : ((wordLoop region (ws.length + 1) ⟨ws, text, seen⟩).ri.Next .RIL_TEXTLINE).1
        = !post.isEmpty := by
      rw [← h2]; rfl
    simp only [lineLoop]
    rw [hb, h2, h4, h5]
    cases post with
    | nil =>
      simp only [List.append_nil] at h1
      simp [h1]
    | cons v post2 =>
      have hlt : (v :: post2).length < ws.length := by
        rcases h3 with h3 | h3
        · exact h3
        · rw [h3] at h1; exact absurd h1.symm (by simp)
      have := ih (v :: post2) f (pre.foldl (appendWord region) text) (seen ++ pre)
        (by omega) (by omega)
      simp only [List.isEmpty_cons, Bool.not_false, if_true]
      rw [this, h1, List.foldl_append, List.append_assoc]

/-- The traced body of `getTextInRegion` on a word stream `ws`. -/
theorem getTextInRegionTraced_some (region : Rectangle) (ws : List Word) (tables : List Table) :
    getTextInRegionTraced region ⟨some ws, tables⟩ = (overlappingText region ws, ws) := by
  simp only [getTextInRegionTraced, TessBaseAPI.GetIterator]
  rw [lineLoop_spec region ws.length ws (ws.length + 1) "" [] (le_refl _) (Nat.lt_succ_self _),
    foldl_appendWord_overlappingText]
  simp

/-- C1: on every word stream `getTextInRegion` returns the texts of the words
whose text is available and whose box the region majorly overlaps, in stream
order and without separator, and it examines the words of the stream one
after the other, each exactly once; a word without text adds nothing and
leaves the later words untouched, also when it ends its line. -/
theorem getTextInRegion_spec (region : Rectangle) (ws : List Word) (tables : List Table) :
    getTextInRegion region ⟨some ws, tables⟩ = overlappingText region ws ∧
    (getTextInRegionTraced region ⟨some ws, tables⟩).2 = ws ∧
    (∀ (pre post : List Word) (box : Rectangle) (last : Bool),
      getTextInRegion region ⟨some (pre ++ ⟨none, box, last⟩ :: post), tables⟩
        = getTextInRegion region ⟨some (pre ++ post), tables⟩) := by
  refine ⟨?_, ?_, ?_⟩
  · simp only [getTextInRegion, getTextInRegionTraced_some]
  · simp only [getTextInRegionTraced_some]
  · intro pre post box last
    simp only [getTextInRegion, getTextInRegionTraced_some, overlappingText, List.filter_append,
      List.filter_cons, Option.isSome_none, Bool.false_and]
    rfl

/-- C4, as stated, fails: the region `(0,0,0,0)` has area zero, but the area of
the word box `(0,0,46341,46341)` wraps around to a negative number, zero
exceeds half of it, and the text of the word is returned. -/
theorem getTextInRegion_area_zero_overflow :
    (⟨0, 0, 0, 0⟩ : Rectangle).area = 0 ∧
    (⟨0, 0, 46341, 46341⟩ : Rectangle).area = -2147479015 ∧
    getTextInRegion ⟨0, 0, 0, 0⟩ ⟨some [⟨some "W", ⟨0, 0, 46341, 46341⟩, true⟩], []⟩ = "W" ∧
    getTextInRegion ⟨0, 0, 0, 0⟩ ⟨some [⟨some "W", ⟨0, 0, 46341, 46341⟩, true⟩], []⟩ ≠ "" := by
  decide

/-- C4, amended: for a region of area zero `getTextInRegion` returns the empty
string, whatever the engine's word stream is, provided the side lengths and
areas of the region and of the word boxes are computed without `int`
overflow. -/
theorem getTextInRegion_area_zero (region : Rectangle) (api : TessBaseAPI)
    (hr : region.NoOverflow) (h : region.area = 0)
    (hw : ∀ w ∈ api.wordList, w.box.NoOverflow) : getTextInRegion region api = "" := by
  obtain ⟨words, tables⟩ := api
  cases words with
  | none => rfl
  | some ws =>
    simp only [getTextInRegion, getTextInRegionTraced_some, overlappingText]
    have hf : ws.filter (fun w => w.text.isSome && region.majorOverlap w.box) = [] := by
      rw [List.filter_eq_nil_iff]
      intro w hmem
      simp [Rectangle.majorOverlap_of_area_zero region w.box hr (hw w hmem) h]
    rw [hf]
    rfl

/-- Witness for C4: the sentinel region `(0,0,0,0)` on a stream whose word
lies at the origin. -/
theorem getTextInRegion_area_zero_witness :
    (⟨0, 0, 0, 0⟩ : Rectangle).NoOverflow ∧ (⟨0, 0, 0, 0⟩ : Rectangle).area = 0 ∧
    getTextInRegion ⟨0, 0, 0, 0⟩ ⟨some [⟨some "Total", ⟨0, 0, 9, 9⟩, true⟩], []⟩ = "" :=
  ⟨by decide, by decide,
    getTextInRegion_area_zero ⟨0, 0, 0, 0⟩ ⟨some [⟨some "Total", ⟨0, 0, 9, 9⟩, true⟩], []⟩
      (by decide) (by decide) (by decide)⟩

/-! ## The table enumeration loop -/

theorem rowLoop_spec (api : TessBaseAPI) (i c : Nat) (col : Rectangle) (rows : List Rectangle) :
    ∀ (fuel r : Nat) (out : List CellReport), rows.length ≤ r + fuel →
      rowLoop api i c col rows fuel r out
        = out ++ ((rows.drop r).enumFrom r).map (cellLine api i (c, col)) := by
  intro fuel
  induction fuel with
  | zero =>
    intro r out h
    simp [rowLoop, List.drop_eq_nil_of_le (show rows.length ≤ r by omega)]
  | succ f ih =>
    intro r out h
    by_cases hr : r < rows.length
    · simp only [rowLoop, List.getElem?_eq_getElem hr]
      rw [ih (r + 1) _ (by omega), List.drop_eq_getElem_cons hr]
      simp only [List.enumFrom_cons, List.map_cons, List.append_assoc, List.singleton_append,
        cellLine]
    · have hle : rows.length ≤ r := Nat.le_of_not_lt hr
      simp [rowLoop, List.getElem?_eq_none hle, List.drop_eq_nil_of_le hle]

theorem colLoop_spec (api : TessBaseAPI) (i : Nat) (rows cols : List Rectangle) :
    ∀ (fuel c : Nat) (out : List CellReport), cols.length ≤ c + fuel →
      colLoop api i rows cols fuel c out
        = out ++ ((cols.drop c).enumFrom c).flatMap
            (fun cc => rows.enum.map (cellLine api i cc)) := by
  intro fuel
  induction fuel with
  | zero =>
    intro c out h
    simp [colLoop, List.drop_eq_nil_of_le (show cols.length ≤ c by omega)]
  | succ f ih =>
    intro c out h
    by_cases hc : c < cols.length
    · simp only [colLoop, List.getElem?_eq_getElem hc]
      rw [ih (c + 1) _ (by omega), List.drop_eq_getElem_cons hc,
        rowLoop_spec api i c _ rows rows.length 0 out (by omega)]
      simp only [List.enumFrom_cons, List.flatMap_cons, List.append_assoc, List.drop_zero,
        List.enum]
    · have hle : cols.length ≤ c := Nat.le_of_not_lt hc
      simp [colLoop, List.getElem?_eq_none hle, List.drop_eq_nil_of_le hle]

/-- The cell lines of one table: columns in the outer loop, rows in the inner. -/
theorem reportTable_eq (api : TessBaseAPI) (i : Nat) (t : Table) :
    reportTable api i t
      = t.cols.enum.flatMap (fun cc => t.rows.enum.map (cellLine api i cc)) := by
  simp only [reportTable]
  rw [colLoop_spec api i t.rows t.cols t.cols.length 0 [] (by omega)]
  simp [List.enum]

theorem tableLoop_spec (api : TessBaseAPI) :
    ∀ (fuel i : Nat) (out : List CellReport), api.tables.length ≤ i + fuel →
      tableLoop api fuel i out
        = out ++ ((api.tables.drop i).enumFrom i).flatMap
            (fun it => reportTable api it.1 it.2) := by
  intro fuel
  induction fuel with
  | zero =>
    intro i out h
    simp [tableLoop, List.drop_eq_nil_of_le (show api.tables.length ≤ i by omega)]
  | succ f ih =>
    intro i out h
    by_cases hi : i < api.tables.length
    · simp only [tableLoop, List.getElem?_eq_getElem hi]
      rw [ih (i + 1) _ (by omega), List.drop_eq_getElem_cons hi]
      simp only [List.enumFrom_cons, List.flatMap_cons, List.append_assoc]
    · have hle : api.tables.length ≤ i := Nat.le_of_not_lt hi
      simp [tableLoop, List.getElem?_eq_none hle, List.drop_eq_nil_of_le hle]

/-- The cell lines of `main` are those of the tables, in table order. -/
theorem mainCellReports_eq (api : TessBaseAPI) :
    mainCellReports api = api.tables.enum.flatMap (fun it => reportTable api it.1 it.2) := by
  simp only [mainCellReports]
  rw [tableLoop_spec api api.tables.length 0 [] (by omega)]
  simp [List.enum]

/-- C3, as stated, fails: for a table of two rows and two columns `main`
prints the cells in the order `(0,0), (1,0), (0,1), (1,1)`, which is not the
row-major order `(0,0), (0,1), (1,0), (1,1)`. -/
theorem main_not_row_major :
    (mainCellReports twoByTwo).map CellReport.indices = [(0, 0), (1, 0), (0, 1), (1, 1)] ∧
    (mainCellReports twoByTwo).map CellReport.indices ≠ rowMajor 2 2 := by
  decide

/-- C3, amended: for every table the loop of `main` prints the cells in
column-major order, the index pairs being `(0,0), (1,0), ..., (R-1,0), (0,1),
..., (R-1,C-1)`, and the text printed for the pair `(r, c)` is the text
extracted for `rows[r].intersection(cols[c])`. -/
theorem reportTable_column_major (api : TessBaseAPI) (i : Nat) (t : Table) :
    (reportTable api i t).map CellReport.indices
      = columnMajor t.rows.length t.cols.length ∧
    ∀ x ∈ reportTable api i t, ∃ row col : Rectangle,
      t.rows[x.row]? = some row ∧ t.cols[x.col]? = some col ∧ x.table = i ∧
      x.text = getTextInRegion (row.intersection col) api := by
  rw [reportTable_eq]
  constructor
  · have h1 : ∀ cc : Nat × Rectangle,
        (t.rows.enum.map (cellLine api i cc)).map CellReport.indices
          = (List.range t.rows.length).map (fun r => (r, cc.1)) := by
      intro cc
      rw [← List.enum_map_fst t.rows, List.map_map, List.map_map]
      rfl
    rw [List.map_flatMap]
    simp only [h1]
    rw [columnMajor, ← List.enum_map_fst t.cols, List.flatMap_map]
  · intro x hx
    obtain ⟨cc, hcc, hx⟩ := List.mem_flatMap.mp hx
    obtain ⟨rr, hrr, rfl⟩ := List.mem_map.mp hx
    exact ⟨rr.2, cc.2, List.mem_enum_iff_getElem?.mp hrr, List.mem_enum_iff_getElem?.mp hcc,
      rfl, rfl⟩

/-! ## The worked examples of the specification -/

/-- Example 1: `(0,0,10,10)` and `(5,5,15,15)` meet in `(5,5,10,10)` of area
25, which is not more than half of 100. -/
theorem example_quarter_overlap :
    (⟨0, 0, 10, 10⟩ : Rectangle).intersection ⟨5, 5, 15, 15⟩ = ⟨5, 5, 10, 10⟩ ∧
    ((⟨0, 0, 10, 10⟩ : Rectangle).intersection ⟨5, 5, 15, 15⟩).area = 25 ∧
    (⟨0, 0, 10, 10⟩ : Rectangle).majorOverlap ⟨5, 5, 15, 15⟩ = false := by
  decide

/-- Example 3: a word inside the region and a word outside of it. -/
theorem example_total_page :
    getTextInRegion ⟨0, 0, 10, 10⟩
      ⟨some [⟨some "Total", ⟨1, 1, 9, 9⟩, false⟩, ⟨some "Page", ⟨50, 50, 60, 60⟩, true⟩], []⟩
      = "Total" := by
  decide

/-- Example 5: a word without text at the end of a line, followed by a line
whose word lies in the region. -/
theorem example_missing_text :
    getTextInRegionTraced ⟨0, 0, 10, 10⟩
      ⟨some [⟨none, ⟨1, 1, 9, 9⟩, true⟩, ⟨some "B", ⟨2, 2, 8, 8⟩, true⟩], []⟩
      = ("B", [⟨none, ⟨1, 1, 9, 9⟩, true⟩, ⟨some "B", ⟨2, 2, 8, 8⟩, true⟩]) := by
  decide

end TableExtraction
